import Mathlib

/-!
Shallow embedding of the change-detection core of `ava-apartment-finder`
(`src/main.rs` and `src/diff.rs`).

Modelling conventions:
* `f64` values arriving from the scraped JSON payload are modelled as `ℚ`;
  the JSON source cannot produce `NaN`/infinities, so structural equality on
  them is lawful and decidable, matching the derived `PartialEq` on the
  Rust structs for all values the program actually handles.
* `DateTime<Utc>` is modelled as an integer timestamp.
* `serde_json::Value` (the `#[serde(flatten)] extra` catch-all fields) is
  modelled by the inductive `Json` below.
* Rust's `BTreeMap<String, _>` is modelled as an association list whose
  entries are kept in strictly ascending key order; iteration order of the
  map is the list order, `get`/`insert`/`remove` are `btGet`/`btInsert`/
  `btRemove`.
* The external fetch collaborator (`get_apartments`) performs network and
  JavaScript-evaluation I/O; functions that call it take its result
  (`Except String ApartmentData`) as an explicit argument.
-/

/-- Model of `serde_json::Value` (used for the `extra` flattened fields):
a value is represented by its canonical serialized text.  Canonical
serialization of `serde_json::Value` is injective, so structural equality
of two values (the derived `PartialEq`) coincides with equality of this
representation; the reconciler never inspects the inside of these values,
it only compares them for equality. -/
structure Json where
  canonical : String
deriving DecidableEq

/-- Model of `serde_json::Value::Null`. -/
def Json.null : Json := { canonical := "null" }

/-- Model of the `Furnished` enum from `src/main.rs`. -/
inductive Furnished where
  | Unfurnished
  | OnDemand
  | Furnished
deriving DecidableEq

/-- Model of the `FloorPlan` struct from `src/main.rs`. -/
structure FloorPlan where
  name : String
  low_resolution : String
  high_resolution : String
deriving DecidableEq

/-- Model of the `VirtualTour` struct from `src/main.rs`. -/
structure VirtualTour where
  space : String
  is_actual_unit : Bool
deriving DecidableEq

/-- Model of the `Price` struct from `src/main.rs`. -/
structure Price where
  price : ℚ
  net_effective_price : ℚ
deriving DecidableEq

/-- Model of the `PricesForMoveInDate` struct from `src/main.rs`; the
`BTreeMap<usize, Price>` is modelled as an association list. -/
structure PricesForMoveInDate where
  move_in_date : ℤ
  prices_per_terms : List (ℕ × Price)
deriving DecidableEq

/-- Model of the `Rent` struct from `src/main.rs`. -/
structure Rent where
  applied_discount : ℚ
  prices_per_movein_date : List PricesForMoveInDate
deriving DecidableEq

/-- Model of the `LowestRent` struct from `src/main.rs`. -/
structure LowestRent where
  date : ℤ
  term_length : String
  price : Price
deriving DecidableEq

/-- Model of the `Promotion` struct from `src/main.rs`. -/
structure Promotion where
  id : String
  title : String
  description : String
  disclaimer : String
deriving DecidableEq

/-- Model of the `PricingOverview` struct from `src/main.rs`. -/
structure PricingOverview where
  display_name : String
  bedroom : ℕ
  type : String
  available : Bool
  designated_lowest_price : ℚ
  on_demand_lowest_price : Option ℚ
  total_lowest_price : ℚ
  total_highest_price : ℚ
deriving DecidableEq

/-- Model of the `Apartment` struct from `src/main.rs`: one unit snapshot.  Structural
equality of two `Apartment`s is the derived `PartialEq` used by
`compute_diff`. -/
structure Apartment where
  unit_id : String
  number : String
  furnished : Furnished
  floor_plan : FloorPlan
  virtual_tour : Option VirtualTour
  bedroom : ℕ
  bathroom : ℕ
  square_feet : ℚ
  available_date : ℤ
  rent : Rent
  lowest_rent : LowestRent
  extra : Json
deriving DecidableEq

/-- Model of the `ApartmentData` struct from `src/main.rs`: the payload extracted by the
fetch collaborator. -/
structure ApartmentData where
  units : List Apartment
  promotions : List Promotion
  pricing_overview : List PricingOverview
  extra : Json
deriving DecidableEq

/-- Model of `BTreeMap::get`: look an entry up by key. -/
def btGet (k : String) : List (String × α) → Option α
  | [] => none
  | (k', v) :: rest => if k = k' then some v else btGet k rest

/-- Lexicographic order on character lists, comparing scalar values.  For
UTF-8 encoded strings this coincides with byte-lexicographic order, the
`Ord` instance Rust's `BTreeMap<String, _>` sorts its keys by. -/
def charsLt : List Char → List Char → Bool
  | [], [] => false
  | [], _ :: _ => true
  | _ :: _, [] => false
  | a :: as, b :: bs =>
    if a.toNat < b.toNat then true
    else if b.toNat < a.toNat then false
    else charsLt as bs

/-- The key order of `BTreeMap<String, _>`: byte-lexicographic comparison
of the two strings. -/
def strLt (a b : String) : Bool :=
  charsLt a.data b.data

/-- Model of `BTreeMap::insert`: insert keeping entries in ascending key order,
replacing any existing entry with the same key. -/
def btInsert (k : String) (v : α) : List (String × α) → List (String × α)
  | [] => [(k, v)]
  | (k', v') :: rest =>
    if strLt k k' then (k, v) :: (k', v') :: rest
    else if k = k' then (k, v) :: rest
    else (k', v') :: btInsert k v rest

/-- Model of `BTreeMap::remove`: drop the entry with the given key.  On a map whose
keys are unique (the `BTreeMap` invariant) removing the key is the same as
filtering it out. -/
def btRemove (k : String) (m : List (String × α)) : List (String × α) :=
  m.filter (fun p => p.1 ≠ k)

/-- Model of the `ChangedApartment` struct from `src/main.rs`. -/
structure ChangedApartment where
  old : Apartment
  new : Apartment
deriving DecidableEq

/-- Model of the `ApartmentsDiff` struct from `src/main.rs`. -/
structure ApartmentsDiff where
  added : List Apartment
  removed : List Apartment
  changed : List ChangedApartment
deriving DecidableEq

/-- Model of `ApartmentsDiff::default()`. -/
def ApartmentsDiff.default : ApartmentsDiff :=
  { added := [], removed := [], changed := [] }

/-- Model of `ApartmentsDiff::is_empty` from `src/main.rs`. -/
def ApartmentsDiff.is_empty (d : ApartmentsDiff) : Bool :=
  d.added.isEmpty && d.removed.isEmpty && d.changed.isEmpty

/-- Model of the `App` struct from `src/main.rs`: the persisted store.  Its only field is
the active map `known_apartments`. -/
structure App where
  known_apartments : List (String × Apartment)
deriving DecidableEq

/-- Model of `App::default()`. -/
def App.default : App := { known_apartments := [] }

/-- The `for unit in new_data.units` loop of `App::compute_diff`
(src/main.rs lines 405–433).  State threaded through the loop: the
`removed` working map (initially the old `known_apartments`), the new
`known_apartments` map being rebuilt (initially empty after
`std::mem::take`), and the diff accumulator.  Returns the final
`(removed, known_apartments, diff)`. -/
def processUnits :
    List Apartment → List (String × Apartment) → List (String × Apartment) →
    ApartmentsDiff →
    List (String × Apartment) × List (String × Apartment) × ApartmentsDiff
  | [], removed, known, d => (removed, known, d)
  | unit :: rest, removed, known, d =>
    let d' :=
      match btGet unit.unit_id removed with
      | some known_unit =>
        if unit ≠ known_unit then
          { d with changed := d.changed ++ [{ old := known_unit, new := unit }] }
        else
          d
      | none => { d with added := d.added ++ [unit] }
    processUnits rest (btRemove unit.unit_id removed)
      (btInsert unit.unit_id unit known) d'

/-- The pure core of `App::compute_diff` (src/main.rs lines 396–439), after
the fetch has succeeded: reconcile the store against the freshly fetched
unit list, returning the updated store and the diff. -/
def App.computeDiff (app : App) (units : List Apartment) :
    App × ApartmentsDiff :=
  let res := processUnits units app.known_apartments [] ApartmentsDiff.default
  ({ known_apartments := res.2.1 },
   { res.2.2 with removed := res.2.2.removed ++ res.1.map (·.2) })

/-- Model of `App::compute_diff` from `src/main.rs`: `get_apartments().await?` runs
first; on failure the `?` operator returns the error before
`known_apartments` is touched.  The fetch result is passed in explicitly;
the returned `App` is the state of `self` when the function returns. -/
def App.compute_diff (app : App) (fetch : Except String ApartmentData) :
    App × Except String ApartmentsDiff :=
  match fetch with
  | .error e => (app, .error e)
  | .ok new_data =>
    let res := app.computeDiff new_data.units
    (res.1, .ok res.2)

/-- Side effects one tick can perform: log lines (via `tracing`) and
writing the persisted store to the DB file.  The translation of
`App::tick` below emits the effects the source code performs; the source
contains no call that writes the store, so no `.save` effect is ever
emitted. -/
inductive Effect where
  | log (msg : String)
  | save (db : App)
deriving DecidableEq

/-- Model of `App::tick` from `src/main.rs` (lines 355–392): compute the diff (the
`?` propagates a fetch error) and log the outcome.  Log messages are
abbreviated to their static text; the interpolated data is presentation
only.  Returns the updated `self`, the `eyre::Result<()>`, and the list of
effects performed. -/
def App.tick (app : App) (fetch : Except String ApartmentData) :
    App × Except String Unit × List Effect :=
  match app.compute_diff fetch with
  | (app', .error e) => (app', .error e, [])
  | (app', .ok d) =>
    if d.is_empty then
      (app', .ok (), [.log "No news :("])
    else
      (app', .ok (),
        [.log "Data has changed!"] ++
        (if d.added.isEmpty then [] else [.log "Newly listed apartments"]) ++
        (if d.removed.isEmpty then [] else [.log "Unlisted apartments"]) ++
        (if d.changed.isEmpty then [] else [.log "Changed apartments"]))

/-- Model of `similar::ChangeTag`: the kind of one change line. -/
inductive ChangeTag where
  | delete
  | insert
  | equal
deriving DecidableEq

/-- One change line as yielded by the `iter_inline_changes` API of `similar`: its
tag, its 0-based line indices on the old and new side (`old_index()` /
`new_index()`), the inline segments `iter_strings_lossy()` yields as
(emphasized, text) pairs, and whether the final newline is missing.  The
`similar` crate is an external collaborator; the renderer in
`src/diff.rs` consumes these values. -/
structure Change where
  tag : ChangeTag
  old_index : Option ℕ
  new_index : Option ℕ
  segments : List (Bool × String)
  missing_newline : Bool
deriving DecidableEq

/-- The `Line` newtype of `src/diff.rs` (line 91): an optional 0-based
line index. -/
structure Line where
  index : Option ℕ
deriving DecidableEq

/-- Rust format with a left-aligned minimum width of 4 columns. -/
def padTo4 (s : String) : String :=
  s ++ String.mk (List.replicate (4 - s.length) ' ')

/-- Model of `Display for Line` (src/diff.rs lines 93–100): blank four columns when
there is no index, otherwise the 1-based line number left-aligned in four
columns. -/
def Line.display : Line → String
  | { index := none } => "    "
  | { index := some idx } => padTo4 (toString (idx + 1))

/-- The sign chosen for each change tag in `diff` (src/diff.rs lines
49–53). -/
def signOf : ChangeTag → String
  | .delete => "-"
  | .insert => "+"
  | .equal => " "

/-- Model of `fmt::Write` for `String`: appending to a `String` buffer; the `write!`
macro surfaces a `Result` but writing to a `String` never fails. -/
def writeStr (acc s : String) : Except String String :=
  .ok (acc ++ s)

/-- The `for (emphasized, value) in change.iter_strings_lossy()` loop of
`diff` (src/diff.rs lines 62–80): both branches write `value` itself; the
emphasized flag only selects a color style, which is a no-op when stdout
is not a tty (the uncolored rendering is modelled). -/
def renderSegments (acc : String) : List (Bool × String) → Except String String
  | [] => .ok acc
  | (_emphasized, value) :: rest =>
    match writeStr acc value with
    | .error e => .error e
    | .ok acc' => renderSegments acc' rest

/-- Rendering of one change (src/diff.rs lines 48–83): the two line-number
columns, a box-drawing separator, the sign, the inline segments, and a
newline if the source line was missing one. -/
def renderChange (acc : String) (c : Change) : Except String String :=
  match writeStr acc
      (Line.display { index := c.old_index } ++
       Line.display { index := c.new_index } ++
       " │" ++ signOf c.tag) with
  | .error e => .error e
  | .ok acc' =>
    match renderSegments acc' c.segments with
    | .error e => .error e
    | .ok acc'' => .ok (if c.missing_newline then acc'' ++ "\n" else acc'')

/-- The `for change in diff.iter_inline_changes(op)` loop of `diff`: one
diff op yields a list of changes, rendered in order. -/
def renderOp (acc : String) : List Change → Except String String
  | [] => .ok acc
  | c :: rest =>
    match renderChange acc c with
    | .error e => .error e
    | .ok acc' => renderOp acc' rest

/-- The `for op in group` loop of `diff`: a group is a list of ops. -/
def renderGroup (acc : String) : List (List Change) → Except String String
  | [] => .ok acc
  | op :: rest =>
    match renderOp acc op with
    | .error e => .error e
    | .ok acc' => renderGroup acc' rest

/-- The 80-column horizontal divider (U+2500) printed between hunk groups
(src/diff.rs lines 43–45). -/
def hunkDivider : String :=
  String.mk (List.replicate 80 '─')

/-- The `for (idx, group) in diff.grouped_ops(3).iter().enumerate()` loop
of `diff`: every group after the first is preceded by the divider line
(pushed with the infallible `push_str`). -/
def renderGroups (acc : String) (isFirst : Bool) :
    List (List (List Change)) → Except String String
  | [] => .ok acc
  | g :: gs =>
    let acc' := if isFirst then acc else acc ++ hunkDivider ++ "\n"
    match renderGroup acc' g with
    | .error e => .error e
    | .ok acc'' => renderGroups acc'' false gs

/-- Model of `diff` from `src/diff.rs` (lines 34–89).  Computing the grouped change
ops from the two input texts is done by the external `similar` crate
(`TextDiff::from_lines(old, new).grouped_ops(3)` plus
`iter_inline_changes`); the function is modelled over those groups: for
every pair of input strings the library yields some `groups`, and the
function renders them into its result string. -/
def diff (groups : List (List (List Change))) : Except String String :=
  renderGroups "" true groups

/-- Model of `diff_header` from `src/diff.rs` (lines 14–31): the header
lines followed by the body produced by `diff`.  As in `diff`, the two
texts being diffed are represented by the change groups the `similar`
crate computes from them. -/
def diff_header (groups : List (List (List Change)))
    (old_path new_path : String) : Except String String :=
  match diff groups with
  | .error e => .error e
  | .ok body =>
    .ok ("--- " ++ old_path ++ "\n" ++ "+++ " ++ new_path ++ "\n" ++ body)

/-- Model of `Display for ChangedApartment` (src/main.rs lines 331–346): render the
diff of the debug serializations of the old and new apartment (represented
by the change groups computed from them), with the one-line display forms
as header labels; on a rendering error fall back to the formatted error
text (`unwrap_or_else`). -/
def ChangedApartment.fmt (groups : List (List (List Change)))
    (old_display new_display : String) : String :=
  match diff_header groups old_display new_display with
  | .ok rendered => rendered
  | .error err => err

/-- A concrete apartment used to instantiate the verified statements: unit
`A`, 2 bed 2 bath, rent 4260 (the price in the specification scenario). -/
def aptOld : Apartment :=
  { unit_id := "A"
    number := "101"
    furnished := Furnished.Unfurnished
    floor_plan := { name := "B2", low_resolution := "lo", high_resolution := "hi" }
    virtual_tour := none
    bedroom := 2
    bathroom := 2
    square_feet := 980
    available_date := 0
    rent := { applied_discount := 0, prices_per_movein_date := [] }
    lowest_rent :=
      { date := 0
        term_length := "12"
        price := { price := 4260, net_effective_price := 4260 } }
    extra := Json.null }

/-- The same unit `A` with its price field changed from 4260 to 4300, and
no other difference (the specification scenario for a changed unit). -/
def aptNew : Apartment :=
  { aptOld with
    lowest_rent :=
      { date := 0
        term_length := "12"
        price := { price := 4300, net_effective_price := 4300 } } }

/-- A concrete unit `B` used as a second, distinct identifier. -/
def aptB : Apartment :=
  { aptOld with
    unit_id := "B"
    number := "202"
    lowest_rent :=
      { date := 0
        term_length := "12"
        price := { price := 3900, net_effective_price := 3900 } } }

/-- A concrete delete-tagged change used to instantiate the renderer
statements. -/
def cDel : Change :=
  { tag := ChangeTag.delete
    old_index := some 0
    new_index := none
    segments := [(true, "price: 4260")]
    missing_newline := false }

theorem btGet_btRemove (k k' : String) (m : List (String × α)) :
    btGet k (btRemove k' m) = if k = k' then none else btGet k m := by
  induction m with
  | nil => simp [btRemove, btGet]
  | cons p t ih =>
    obtain ⟨a, b⟩ := p
    by_cases hak : a = k'
    · subst hak
      have hstep : btRemove a ((a, b) :: t) = btRemove a t := by
        simp [btRemove, List.filter_cons]
      rw [hstep, ih]
      by_cases hk : k = a
      · simp [hk]
      · simp [btGet, hk]
    · have hstep : btRemove k' ((a, b) :: t) = (a, b) :: btRemove k' t := by
        simp [btRemove, List.filter_cons, hak]
      rw [hstep]
      by_cases hk : k = a
      · subst hk
        simp [btGet, hak]
      · rw [show btGet k ((a, b) :: btRemove k' t) =
            if k = a then some b else btGet k (btRemove k' t) from rfl]
        rw [if_neg hk, ih]
        by_cases hkk : k = k'
        · simp [hkk]
        · simp [btGet, hkk, hk]

theorem btGet_btInsert (k k' : String) (v : α) (m : List (String × α)) :
    btGet k (btInsert k' v m) = if k = k' then some v else btGet k m := by
  induction m with
  | nil => simp [btInsert, btGet]
  | cons p t ih =>
    obtain ⟨a, b⟩ := p
    by_cases h1 : strLt k' a
    · rw [show btInsert k' v ((a, b) :: t) = (k', v) :: (a, b) :: t by
        simp [btInsert, h1]]
      simp [btGet]
    · by_cases h2 : k' = a
      · subst h2
        rw [show btInsert k' v ((k', b) :: t) = (k', v) :: t by
          simp [btInsert, h1]]
        by_cases hk : k = k' <;> simp [btGet, hk]
      · rw [show btInsert k' v ((a, b) :: t) = (a, b) :: btInsert k' v t by
          simp [btInsert, h1, h2]]
        by_cases hka : k = a
        · have hkk : ¬k = k' := by
            intro hh
            exact h2 (by rw [← hh, hka])
          have h2' : ¬a = k' := fun hh => h2 hh.symm
          simp [btGet, hka, hkk, h2']
        · simp [btGet, hka, ih]

theorem mem_btInsert (p : String × α) (k : String) (v : α)
    (m : List (String × α)) (h : p ∈ btInsert k v m) :
    p = (k, v) ∨ p ∈ m := by
  induction m with
  | nil => simpa [btInsert] using h
  | cons q t ih =>
    obtain ⟨a, b⟩ := q
    by_cases h1 : strLt k a
    · rw [show btInsert k v ((a, b) :: t) = (k, v) :: (a, b) :: t by
        simp [btInsert, h1]] at h
      rcases List.mem_cons.mp h with h' | h'
      · exact Or.inl h'
      · exact Or.inr h'
    · by_cases h2 : k = a
      · subst h2
        rw [show btInsert k v ((k, b) :: t) = (k, v) :: t by
          simp [btInsert, h1]] at h
        rcases List.mem_cons.mp h with h' | h'
        · exact Or.inl h'
        · exact Or.inr (List.mem_cons_of_mem _ h')
      · rw [show btInsert k v ((a, b) :: t) = (a, b) :: btInsert k v t by
          simp [btInsert, h1, h2]] at h
        rcases List.mem_cons.mp h with h' | h'
        · exact Or.inr (h' ▸ List.mem_cons_self _ _)
        · rcases ih h' with h'' | h''
          · exact Or.inl h''
          · exact Or.inr (List.mem_cons_of_mem _ h'')

theorem processUnits_fst (units : List Apartment)
    (removed known : List (String × Apartment)) (d : ApartmentsDiff) :
    (processUnits units removed known d).1 =
      removed.filter (fun p => p.1 ∉ units.map Apartment.unit_id) := by
  induction units generalizing removed known d with
  | nil => simp [processUnits]
  | cons u rest ih =>
    simp only [processUnits]
    rw [ih]
    rw [show btRemove u.unit_id removed =
        removed.filter (fun p => p.1 ≠ u.unit_id) from rfl]
    rw [List.filter_filter]
    apply List.filter_congr
    intro p _
    rcases Decidable.em (p.1 = u.unit_id) with h1 | h1 <;>
      rcases Decidable.em (p.1 ∈ List.map Apartment.unit_id rest) with h2 | h2 <;>
      simp [h1, h2]

theorem processUnits_diff_removed (units : List Apartment)
    (removed known : List (String × Apartment)) (d : ApartmentsDiff) :
    (processUnits units removed known d).2.2.removed = d.removed := by
  induction units generalizing removed known d with
  | nil => simp [processUnits]
  | cons u rest ih =>
    simp only [processUnits]
    rw [ih]
    rcases hbt : btGet u.unit_id removed with _ | k
    · rfl
    · by_cases hne : u = k <;> simp [hne]

theorem processUnits_known (units : List Apartment)
    (removed known : List (String × Apartment)) (d : ApartmentsDiff) :
    (processUnits units removed known d).2.1 =
      units.foldl (fun m u => btInsert u.unit_id u m) known := by
  induction units generalizing removed known d with
  | nil => simp [processUnits]
  | cons u rest ih =>
    simp only [processUnits, List.foldl_cons]
    exact ih _ _ _

theorem processUnits_added (units : List Apartment)
    (removed known : List (String × Apartment)) (d : ApartmentsDiff)
    (h : (units.map Apartment.unit_id).Nodup) :
    (processUnits units removed known d).2.2.added =
      d.added ++ units.filter (fun u => (btGet u.unit_id removed).isNone) := by
  induction units generalizing removed known d with
  | nil => simp [processUnits]
  | cons u rest ih =>
    simp only [List.map_cons, List.nodup_cons] at h
    obtain ⟨hu, hrest⟩ := h
    simp only [processUnits]
    rw [ih _ _ _ hrest]
    have hfix :
        rest.filter
            (fun u' => (btGet u'.unit_id (btRemove u.unit_id removed)).isNone) =
          rest.filter (fun u' => (btGet u'.unit_id removed).isNone) := by
      apply List.filter_congr
      intro u' hu'
      have hne : u'.unit_id ≠ u.unit_id := by
        intro hh
        exact hu (hh ▸ List.mem_map_of_mem _ hu')
      rw [btGet_btRemove, if_neg hne]
    rw [hfix]
    rcases hbt : btGet u.unit_id removed with _ | k
    · simp [List.filter_cons, hbt]
    · by_cases hne : u = k
      · subst hne
        simp [List.filter_cons, hbt]
      · simp [List.filter_cons, hbt, hne]

theorem processUnits_changed (units : List Apartment)
    (removed known : List (String × Apartment)) (d : ApartmentsDiff)
    (h : (units.map Apartment.unit_id).Nodup) :
    (processUnits units removed known d).2.2.changed =
      d.changed ++ units.filterMap (fun u =>
        match btGet u.unit_id removed with
        | none => none
        | some k => if u ≠ k then some (ChangedApartment.mk k u) else none) := by
  induction units generalizing removed known d with
  | nil => simp [processUnits]
  | cons u rest ih =>
    simp only [List.map_cons, List.nodup_cons] at h
    obtain ⟨hu, hrest⟩ := h
    simp only [processUnits]
    rw [ih _ _ _ hrest]
    have hfix :
        rest.filterMap (fun u' =>
            match btGet u'.unit_id (btRemove u.unit_id removed) with
            | none => none
            | some k => if u' ≠ k then some (ChangedApartment.mk k u') else none) =
          rest.filterMap (fun u' =>
            match btGet u'.unit_id removed with
            | none => none
            | some k => if u' ≠ k then some (ChangedApartment.mk k u') else none) := by
      apply List.filterMap_congr
      intro u' hu'
      have hne : u'.unit_id ≠ u.unit_id := by
        intro hh
        exact hu (hh ▸ List.mem_map_of_mem _ hu')
      rw [btGet_btRemove, if_neg hne]
    rw [hfix]
    rcases hbt : btGet u.unit_id removed with _ | k
    · simp [List.filterMap_cons, hbt]
    · by_cases hne : u = k
      · subst hne
        simp [List.filterMap_cons, hbt]
      · simp [List.filterMap_cons, hbt, hne]

theorem find?_append_or (l1 l2 : List α) (p : α → Bool) :
    (l1 ++ l2).find? p = (l1.find? p).or (l2.find? p) := by
  induction l1 with
  | nil => simp
  | cons a t ih =>
    by_cases h : p a
    · simp [List.find?_cons, h]
    · simp [List.find?_cons, h, ih]

theorem btGet_foldl_btInsert (k : String) (units : List Apartment)
    (m : List (String × Apartment)) :
    btGet k (units.foldl (fun acc u => btInsert u.unit_id u acc) m) =
      (units.reverse.find? (fun u => decide (u.unit_id = k))).or (btGet k m) := by
  induction units generalizing m with
  | nil => simp
  | cons u rest ih =>
    simp only [List.foldl_cons, List.reverse_cons]
    rw [ih, btGet_btInsert, find?_append_or, Option.or_assoc]
    congr 1
    by_cases hk : u.unit_id = k
    · simp [List.find?_cons, hk]
    · have hk' : ¬k = u.unit_id := fun hh => hk hh.symm
      simp [List.find?_cons, hk, hk']

theorem mem_foldl_btInsert (p : String × Apartment) (units : List Apartment)
    (known : List (String × Apartment))
    (h : p ∈ units.foldl (fun acc u => btInsert u.unit_id u acc) known) :
    p.1 ∈ units.map Apartment.unit_id ∨ p ∈ known := by
  induction units generalizing known with
  | nil => simpa using h
  | cons u rest ih =>
    simp only [List.foldl_cons] at h
    rcases ih _ h with h' | h'
    · exact Or.inl (by simp only [List.map_cons]; exact List.mem_cons_of_mem _ h')
    · rcases mem_btInsert _ _ _ _ h' with h'' | h''
      · exact Or.inl (by simp [h''])
      · exact Or.inr h''

theorem btGet_mem (k : String) (m : List (String × α)) (a : α)
    (h : btGet k m = some a) : (k, a) ∈ m := by
  induction m with
  | nil => simp [btGet] at h
  | cons p t ih =>
    obtain ⟨b, c⟩ := p
    by_cases hk : k = b
    · subst hk
      simp [btGet] at h
      subst h
      exact List.mem_cons_self _ _
    · rw [show btGet k ((b, c) :: t) = btGet k t by simp [btGet, hk]] at h
      exact List.mem_cons_of_mem _ (ih h)

theorem processUnits_added_sublist (units : List Apartment)
    (removed known : List (String × Apartment)) (d : ApartmentsDiff) :
    ∃ t, (processUnits units removed known d).2.2.added = d.added ++ t ∧
      t.Sublist units := by
  induction units generalizing removed known d with
  | nil => exact ⟨[], by simp [processUnits], List.nil_sublist _⟩
  | cons u rest ih =>
    simp only [processUnits]
    rcases hbt : btGet u.unit_id removed with _ | k
    · obtain ⟨t, ht, hs⟩ := ih (btRemove u.unit_id removed)
        (btInsert u.unit_id u known) { d with added := d.added ++ [u] }
      refine ⟨u :: t, ?_, List.Sublist.cons₂ _ hs⟩
      rw [ht]
      simp
    · by_cases hne : u = k
      · subst hne
        obtain ⟨t, ht, hs⟩ := ih (btRemove u.unit_id removed)
          (btInsert u.unit_id u known) d
        refine ⟨t, ?_, hs.cons _⟩
        simpa using ht
      · obtain ⟨t, ht, hs⟩ := ih (btRemove u.unit_id removed)
          (btInsert u.unit_id u known)
          { d with changed := d.changed ++ [{ old := k, new := u }] }
        refine ⟨t, ?_, hs.cons _⟩
        simpa [hne] using ht

theorem processUnits_changed_sublist (units : List Apartment)
    (removed known : List (String × Apartment)) (d : ApartmentsDiff) :
    ∃ t, (processUnits units removed known d).2.2.changed = d.changed ++ t ∧
      (t.map ChangedApartment.new).Sublist units := by
  induction units generalizing removed known d with
  | nil => exact ⟨[], by simp [processUnits], List.nil_sublist _⟩
  | cons u rest ih =>
    simp only [processUnits]
    rcases hbt : btGet u.unit_id removed with _ | k
    · obtain ⟨t, ht, hs⟩ := ih (btRemove u.unit_id removed)
        (btInsert u.unit_id u known) { d with added := d.added ++ [u] }
      refine ⟨t, ?_, hs.cons _⟩
      simpa using ht
    · by_cases hne : u = k
      · subst hne
        obtain ⟨t, ht, hs⟩ := ih (btRemove u.unit_id removed)
          (btInsert u.unit_id u known) d
        refine ⟨t, ?_, hs.cons _⟩
        simpa using ht
      · obtain ⟨t, ht, hs⟩ := ih (btRemove u.unit_id removed)
          (btInsert u.unit_id u known)
          { d with changed := d.changed ++ [{ old := k, new := u }] }
        refine ⟨{ old := k, new := u } :: t, ?_, List.Sublist.cons₂ _ hs⟩
        simpa [hne] using ht

theorem computeDiff_fst (app : App) (units : List Apartment) :
    (app.computeDiff units).1.known_apartments =
      units.foldl (fun m u => btInsert u.unit_id u m) [] := by
  simp [App.computeDiff, processUnits_known]

theorem computeDiff_removed (app : App) (units : List Apartment) :
    (app.computeDiff units).2.removed =
      (app.known_apartments.filter
        (fun p => p.1 ∉ units.map Apartment.unit_id)).map (·.2) := by
  simp [App.computeDiff, processUnits_diff_removed, processUnits_fst,
    ApartmentsDiff.default]

theorem computeDiff_added (app : App) (units : List Apartment)
    (h : (units.map Apartment.unit_id).Nodup) :
    (app.computeDiff units).2.added =
      units.filter (fun u => (btGet u.unit_id app.known_apartments).isNone) := by
  simp [App.computeDiff, processUnits_added _ _ _ _ h, ApartmentsDiff.default]

theorem computeDiff_changed (app : App) (units : List Apartment)
    (h : (units.map Apartment.unit_id).Nodup) :
    (app.computeDiff units).2.changed =
      units.filterMap (fun u =>
        match btGet u.unit_id app.known_apartments with
        | none => none
        | some k => if u ≠ k then some (ChangedApartment.mk k u) else none) := by
  simp [App.computeDiff, processUnits_changed _ _ _ _ h, ApartmentsDiff.default]

theorem processUnits_added_mono (units : List Apartment)
    (removed known : List (String × Apartment)) (d : ApartmentsDiff)
    (u : Apartment) (hu : u ∈ d.added) :
    u ∈ (processUnits units removed known d).2.2.added := by
  induction units generalizing removed known d with
  | nil => simpa [processUnits] using hu
  | cons x rest ih =>
    simp only [processUnits]
    apply ih
    rcases hbt : btGet x.unit_id removed with _ | k
    · simp only [List.mem_append] at *
      exact Or.inl hu
    · by_cases hne : x = k
      · simpa [hne] using hu
      · simpa [hne] using hu

theorem processUnits_added_mem (xs ys : List Apartment) (u : Apartment)
    (removed known : List (String × Apartment)) (d : ApartmentsDiff)
    (h : u.unit_id ∈ xs.map Apartment.unit_id ∨ btGet u.unit_id removed = none) :
    u ∈ (processUnits (xs ++ u :: ys) removed known d).2.2.added := by
  induction xs generalizing removed known d with
  | nil =>
    rcases h with h | h
    · simp at h
    · simp only [List.nil_append, processUnits]
      rw [h]
      apply processUnits_added_mono
      simp
  | cons x xs' ih =>
    simp only [List.cons_append, processUnits]
    apply ih
    rcases h with h | h
    · rw [List.map_cons] at h
      rcases List.mem_cons.mp h with h' | h'
      · right
        rw [btGet_btRemove, if_pos h']
      · left
        exact h'
    · right
      rw [btGet_btRemove]
      by_cases hux : u.unit_id = x.unit_id
      · rw [if_pos hux]
      · rw [if_neg hux, h]

theorem find?_reverse_nodup (v : List Apartment) (u : Apartment)
    (hv : (v.map Apartment.unit_id).Nodup) (hu : u ∈ v) :
    v.reverse.find? (fun w => decide (w.unit_id = u.unit_id)) = some u := by
  have hsome : (v.reverse.find? (fun w => decide (w.unit_id = u.unit_id))).isSome := by
    rw [List.find?_isSome]
    exact ⟨u, List.mem_reverse.mpr hu, by simp⟩
  obtain ⟨w, hw⟩ := Option.isSome_iff_exists.mp hsome
  have hwmem : w ∈ v := List.mem_reverse.mp (List.mem_of_find?_eq_some hw)
  have hwid : w.unit_id = u.unit_id := by simpa using List.find?_some hw
  have : w = u := List.inj_on_of_nodup_map hv hwmem hu hwid
  rw [hw, this]

theorem renderSegments_shape (segs : List (Bool × String)) (acc : String) :
    ∃ t, renderSegments acc segs = .ok (acc ++ t) := by
  induction segs generalizing acc with
  | nil => exact ⟨"", by simp [renderSegments]⟩
  | cons p rest ih =>
    obtain ⟨e, v⟩ := p
    obtain ⟨t, ht⟩ := ih (acc ++ v)
    exact ⟨v ++ t, by simp [renderSegments, writeStr, ht, String.append_assoc]⟩

theorem renderChange_shape (acc : String) (c : Change) :
    ∃ t, renderChange acc c = .ok (acc ++
      (Line.display { index := c.old_index } ++
       Line.display { index := c.new_index } ++
       " │" ++ signOf c.tag ++ t)) := by
  obtain ⟨t, ht⟩ := renderSegments_shape c.segments
    (acc ++ (Line.display { index := c.old_index } ++
      Line.display { index := c.new_index } ++ " │" ++ signOf c.tag))
  refine ⟨t ++ (if c.missing_newline then "\n" else ""), ?_⟩
  simp only [String.append_assoc] at ht
  by_cases hn : c.missing_newline <;>
    simp [renderChange, writeStr, ht, hn, String.append_assoc]

theorem renderOp_ok (changes : List Change) (acc : String) :
    ∃ s, renderOp acc changes = .ok s := by
  induction changes generalizing acc with
  | nil => exact ⟨acc, rfl⟩
  | cons c rest ih =>
    obtain ⟨t, ht⟩ := renderChange_shape acc c
    obtain ⟨s, hs⟩ := ih (acc ++
      (Line.display { index := c.old_index } ++
       Line.display { index := c.new_index } ++
       " │" ++ signOf c.tag ++ t))
    exact ⟨s, by simp [renderOp, ht, hs]⟩

theorem renderGroup_ok (ops : List (List Change)) (acc : String) :
    ∃ s, renderGroup acc ops = .ok s := by
  induction ops generalizing acc with
  | nil => exact ⟨acc, rfl⟩
  | cons op rest ih =>
    obtain ⟨s, hs⟩ := renderOp_ok op acc
    obtain ⟨s', hs'⟩ := ih s
    exact ⟨s', by simp [renderGroup, hs, hs']⟩

theorem renderGroups_ok (groups : List (List (List Change))) (acc : String)
    (isFirst : Bool) :
    ∃ s, renderGroups acc isFirst groups = .ok s := by
  induction groups generalizing acc isFirst with
  | nil => exact ⟨acc, rfl⟩
  | cons g gs ih =>
    obtain ⟨s, hs⟩ := renderGroup_ok g (if isFirst then acc else acc ++ hunkDivider ++ "\n")
    obtain ⟨s', hs'⟩ := ih s false
    exact ⟨s', by simp [renderGroups, hs, hs']⟩

/-- Claim C5: if the external fetch step fails, the tick short-circuits
before reconciliation and the store is left unchanged: `compute_diff`
returns the fetch error with `known_apartments` equal to the prior store,
and hence `tick` propagates the same error, also leaving the store
unchanged (and performing no effects). -/
theorem claim_c5_fetch_error_leaves_store (app : App) (e : String) :
    app.compute_diff (Except.error e) = (app, Except.error e) ∧
    app.tick (Except.error e) = (app, Except.error e, []) :=
  ⟨rfl, rfl⟩

/-- Claim C4 (evaluating the code): `App::tick` never emits a save effect —
the source of `tick` (and of `main`) contains no call that writes the
store to the DB file, so the on-disk state is never updated after a tick,
contrary to the claim that every `Ok` tick persists the store. -/
theorem claim_c4_tick_never_persists (app : App)
    (fetch : Except String ApartmentData) (db : App) :
    Effect.save db ∉ (app.tick fetch).2.2 := by
  intro hmem
  unfold App.tick at hmem
  rcases happ : app.compute_diff fetch with ⟨app', r⟩
  rw [happ] at hmem
  cases r with
  | error e => simp at hmem
  | ok d =>
    by_cases hemp : d.is_empty = true
    · simp [hemp] at hmem
    · simp [hemp] at hmem

/-- Claim C6: when the prior store holds exactly one unit and the snapshot
collection holds exactly one unit with the same identifier but a different
payload, reconciliation yields exactly one `changed` entry, whose pair is
(old payload, new payload), and no `added` or `removed` entries. -/
theorem claim_c6_single_field_change (old new : Apartment)
    (hid : new.unit_id = old.unit_id) (hne : old ≠ new) :
    (App.computeDiff { known_apartments := [(old.unit_id, old)] } [new]).2 =
      { added := [], removed := [], changed := [{ old := old, new := new }] } := by
  have hne' : new ≠ old := fun h => hne h.symm
  simp [App.computeDiff, processUnits, btGet, btRemove, ApartmentsDiff.default,
    hid, hne', List.filter]

/-- Claim C8: rendering never fails: for every change-group structure the
`similar` library can produce (and any header labels), `diff` and
`diff_header` return `Ok`, and the `Display` fallback for a changed
apartment returns the rendered text, so formatting a `ChangedApartment`
never fails. -/
theorem claim_c8_render_never_fails (groups : List (List (List Change)))
    (old_path new_path : String) :
    ∃ body, diff groups = .ok body ∧
      diff_header groups old_path new_path =
        .ok ("--- " ++ old_path ++ "\n" ++ "+++ " ++ new_path ++ "\n" ++ body) ∧
      ChangedApartment.fmt groups old_path new_path =
        "--- " ++ old_path ++ "\n" ++ "+++ " ++ new_path ++ "\n" ++ body := by
  obtain ⟨body, hb⟩ := renderGroups_ok groups "" true
  exact ⟨body, hb, by simp [diff_header, diff, hb],
    by simp [ChangedApartment.fmt, diff_header, diff, hb]⟩

/-- Claim C1 (amended): provided the snapshot collection contains no two
snapshots with the same identifier (and the store, per its data-model
invariant, maps each key to a unit bearing that key), reconciliation puts
no identifier into more than one of the added/removed/changed buckets, and
an identifier present on both sides with structurally equal payload occurs
in none of them.  Without the no-duplicate proviso the claim fails, see
the counterexample. -/
theorem claim_c1_partition (S : App) (v : List Apartment)
    (hWF : ∀ p ∈ S.known_apartments, (p.2).unit_id = p.1)
    (hv : (v.map Apartment.unit_id).Nodup) :
    (∀ i, i ∈ (S.computeDiff v).2.added.map Apartment.unit_id →
       i ∉ (S.computeDiff v).2.removed.map Apartment.unit_id) ∧
    (∀ i, i ∈ (S.computeDiff v).2.added.map Apartment.unit_id →
       i ∉ (S.computeDiff v).2.changed.map (fun c => c.new.unit_id)) ∧
    (∀ i, i ∈ (S.computeDiff v).2.removed.map Apartment.unit_id →
       i ∉ (S.computeDiff v).2.changed.map (fun c => c.new.unit_id)) ∧
    (∀ u ∈ v, btGet u.unit_id S.known_apartments = some u →
       u.unit_id ∉ (S.computeDiff v).2.added.map Apartment.unit_id ∧
       u.unit_id ∉ (S.computeDiff v).2.removed.map Apartment.unit_id ∧
       u.unit_id ∉ (S.computeDiff v).2.changed.map (fun c => c.new.unit_id)) ∧
    (∀ i, (i ∈ v.map Apartment.unit_id ∨
        i ∈ S.known_apartments.map (·.1)) →
       i ∈ (S.computeDiff v).2.added.map Apartment.unit_id ∨
       i ∈ (S.computeDiff v).2.removed.map Apartment.unit_id ∨
       i ∈ (S.computeDiff v).2.changed.map (fun c => c.new.unit_id) ∨
       (∃ u ∈ v, u.unit_id = i ∧ btGet i S.known_apartments = some u)) := by
  have hAddC : ∀ i, i ∈ ((S.computeDiff v).2.added.map Apartment.unit_id) →
      i ∈ v.map Apartment.unit_id ∧ btGet i S.known_apartments = none := by
    intro i hi
    rw [computeDiff_added S v hv] at hi
    simp only [List.mem_map, List.mem_filter] at hi
    obtain ⟨u, ⟨huv, hnone⟩, rfl⟩ := hi
    exact ⟨List.mem_map_of_mem _ huv, by simpa using hnone⟩
  have hRemC : ∀ i, i ∈ ((S.computeDiff v).2.removed.map Apartment.unit_id) →
      i ∉ v.map Apartment.unit_id := by
    intro i hi hcon
    rw [computeDiff_removed] at hi
    simp only [List.map_map, List.mem_map, List.mem_filter,
      Function.comp] at hi
    obtain ⟨p, ⟨hpS, hpnot⟩, hpid⟩ := hi
    rw [hWF p hpS] at hpid
    subst hpid
    have hp1 : p.1 ∉ v.map Apartment.unit_id := by simpa using hpnot
    exact hp1 hcon
  have hChgC : ∀ i,
      i ∈ ((S.computeDiff v).2.changed.map (fun c => c.new.unit_id)) →
      ∃ u k, u ∈ v ∧ u.unit_id = i ∧ btGet i S.known_apartments = some k ∧
        u ≠ k := by
    intro i hi
    rw [computeDiff_changed S v hv] at hi
    simp only [List.mem_map, List.mem_filterMap] at hi
    obtain ⟨c, ⟨u, huv, hmu⟩, hci⟩ := hi
    rcases hbt : btGet u.unit_id S.known_apartments with _ | k
    · rw [hbt] at hmu
      simp at hmu
    · rw [hbt] at hmu
      by_cases hne : u = k
      · simp [hne] at hmu
      · simp only [hne, ne_eq, not_false_iff, if_true, Option.some_inj] at hmu
        subst hmu
        have hui : u.unit_id = i := hci
        exact ⟨u, k, huv, hui, hui ▸ hbt, hne⟩
  refine ⟨?_, ?_, ?_, ?_, ?_⟩
  · intro i hia hir
    exact hRemC i hir (hAddC i hia).1
  · intro i hia hic
    obtain ⟨u, k, _, _, hsome, _⟩ := hChgC i hic
    rw [(hAddC i hia).2] at hsome
    exact Option.noConfusion hsome
  · intro i hir hic
    obtain ⟨u, k, huv, hui, _, _⟩ := hChgC i hic
    exact hRemC i hir (hui ▸ List.mem_map_of_mem _ huv)
  · intro u huv hbtu
    refine ⟨?_, ?_, ?_⟩
    · intro hia
      rw [(hAddC _ hia).2] at hbtu
      exact Option.noConfusion hbtu
    · intro hir
      exact hRemC _ hir (List.mem_map_of_mem _ huv)
    · intro hic
      obtain ⟨u', k, hu'v, hu'i, hsome, hne⟩ := hChgC _ hic
      have hu'u : u' = u := List.inj_on_of_nodup_map hv hu'v huv hu'i
      subst hu'u
      rw [hbtu] at hsome
      injection hsome with hk
      exact hne hk
  · intro i hi
    by_cases hiv : i ∈ v.map Apartment.unit_id
    · obtain ⟨u, huv, hui⟩ := List.mem_map.mp hiv
      rcases hbt : btGet i S.known_apartments with _ | k
      · left
        rw [computeDiff_added S v hv]
        refine List.mem_map.mpr ⟨u, List.mem_filter.mpr ⟨huv, ?_⟩, hui⟩
        simp [hui, hbt]
      · by_cases huk : u = k
        · right; right; right
          exact ⟨u, huv, hui, congrArg some huk.symm⟩
        · right; right; left
          rw [computeDiff_changed S v hv]
          refine List.mem_map.mpr ⟨ChangedApartment.mk k u,
            List.mem_filterMap.mpr ⟨u, huv, ?_⟩, hui⟩
          rw [show btGet u.unit_id S.known_apartments = some k by
            rw [hui]; exact hbt]
          simp [huk]
    · have hi' : i ∈ S.known_apartments.map (·.1) := hi.resolve_left hiv
      obtain ⟨p, hpS, hpi⟩ := List.mem_map.mp hi'
      right; left
      rw [computeDiff_removed]
      refine List.mem_map.mpr
        ⟨p.2, List.mem_map.mpr ⟨p, List.mem_filter.mpr ⟨hpS, ?_⟩, rfl⟩, ?_⟩
      · simp only [decide_eq_true_eq, hpi]
        exact hiv
      · rw [hWF p hpS, hpi]

/-- Counterexample to claim C1 as stated (quantifying over every snapshot
collection): against the store mapping A to `aptOld`, the snapshot
collection `[aptNew, aptNew]` (the same identifier twice) puts the
identifier A into both the `changed` bucket (first occurrence) and the
`added` bucket (second occurrence). -/
theorem claim_c1_counterexample :
    "A" ∈ ((App.computeDiff { known_apartments := [("A", aptOld)] }
        [aptNew, aptNew]).2.added.map Apartment.unit_id) ∧
    "A" ∈ ((App.computeDiff { known_apartments := [("A", aptOld)] }
        [aptNew, aptNew]).2.changed.map (fun c => c.new.unit_id)) := by
  decide

/-- Witness instantiating claim C1 at the store { A ↦ aptOld } and the
duplicate-free snapshot collection [aptNew, aptB]. -/
theorem claim_c1_partition_witness :
    (∀ p ∈ ({ known_apartments := [("A", aptOld)] } : App).known_apartments,
       (p.2).unit_id = p.1) ∧
    (([aptNew, aptB].map Apartment.unit_id).Nodup) ∧
    ((∀ i, i ∈ (App.computeDiff { known_apartments := [("A", aptOld)] }
           [aptNew, aptB]).2.added.map Apartment.unit_id →
        i ∉ (App.computeDiff { known_apartments := [("A", aptOld)] }
           [aptNew, aptB]).2.removed.map Apartment.unit_id) ∧
     (∀ i, i ∈ (App.computeDiff { known_apartments := [("A", aptOld)] }
           [aptNew, aptB]).2.added.map Apartment.unit_id →
        i ∉ (App.computeDiff { known_apartments := [("A", aptOld)] }
           [aptNew, aptB]).2.changed.map (fun c => c.new.unit_id)) ∧
     (∀ i, i ∈ (App.computeDiff { known_apartments := [("A", aptOld)] }
           [aptNew, aptB]).2.removed.map Apartment.unit_id →
        i ∉ (App.computeDiff { known_apartments := [("A", aptOld)] }
           [aptNew, aptB]).2.changed.map (fun c => c.new.unit_id)) ∧
     (∀ u ∈ [aptNew, aptB],
        btGet u.unit_id
            ({ known_apartments := [("A", aptOld)] } : App).known_apartments =
          some u →
        u.unit_id ∉ (App.computeDiff { known_apartments := [("A", aptOld)] }
           [aptNew, aptB]).2.added.map Apartment.unit_id ∧
        u.unit_id ∉ (App.computeDiff { known_apartments := [("A", aptOld)] }
           [aptNew, aptB]).2.removed.map Apartment.unit_id ∧
        u.unit_id ∉ (App.computeDiff { known_apartments := [("A", aptOld)] }
           [aptNew, aptB]).2.changed.map (fun c => c.new.unit_id)) ∧
     (∀ i, (i ∈ [aptNew, aptB].map Apartment.unit_id ∨
         i ∈ (App.mk [("A", aptOld)]).known_apartments.map (·.1)) →
        i ∈ (App.computeDiff { known_apartments := [("A", aptOld)] }
           [aptNew, aptB]).2.added.map Apartment.unit_id ∨
        i ∈ (App.computeDiff { known_apartments := [("A", aptOld)] }
           [aptNew, aptB]).2.removed.map Apartment.unit_id ∨
        i ∈ (App.computeDiff { known_apartments := [("A", aptOld)] }
           [aptNew, aptB]).2.changed.map (fun c => c.new.unit_id) ∨
        (∃ u ∈ [aptNew, aptB], u.unit_id = i ∧
          btGet i (App.mk [("A", aptOld)]).known_apartments = some u))) :=
  ⟨by decide, by decide,
    claim_c1_partition { known_apartments := [("A", aptOld)] } [aptNew, aptB]
      (by decide) (by decide)⟩

/-- Claim C2 (amended): provided the snapshot collection contains no
duplicate identifiers, reconciling it a second time against the store
produced by the first reconciliation yields an empty diff.  Without the
proviso the claim fails, see the counterexample. -/
theorem claim_c2_idempotent (S : App) (v : List Apartment)
    (hv : (v.map Apartment.unit_id).Nodup) :
    (((S.computeDiff v).1).computeDiff v).2.is_empty = true := by
  have hknown : (S.computeDiff v).1.known_apartments =
      v.foldl (fun m u => btInsert u.unit_id u m) [] := computeDiff_fst S v
  have hlook : ∀ u ∈ v,
      btGet u.unit_id (S.computeDiff v).1.known_apartments = some u := by
    intro u hu
    rw [hknown, btGet_foldl_btInsert, find?_reverse_nodup v u hv hu]
    rfl
  have hadded : ((S.computeDiff v).1.computeDiff v).2.added = [] := by
    rw [computeDiff_added _ v hv, List.filter_eq_nil_iff]
    intro u hu
    simp [hlook u hu]
  have hchanged : ((S.computeDiff v).1.computeDiff v).2.changed = [] := by
    rw [computeDiff_changed _ v hv, List.filterMap_eq_nil_iff]
    intro u hu
    rw [hlook u hu]
    simp
  have hremoved : ((S.computeDiff v).1.computeDiff v).2.removed = [] := by
    rw [computeDiff_removed]
    have hfil : (S.computeDiff v).1.known_apartments.filter
        (fun p => p.1 ∉ v.map Apartment.unit_id) = [] := by
      rw [List.filter_eq_nil_iff]
      intro p hp
      rcases mem_foldl_btInsert p v [] (hknown ▸ hp) with h | h
      · simpa using h
      · exact absurd h (List.not_mem_nil p)
    rw [hfil]
    rfl
  simp [ApartmentsDiff.is_empty, hadded, hchanged, hremoved]

/-- Counterexample to claim C2 as stated (quantifying over every snapshot
list): with the empty store and the duplicated snapshot list
[aptOld, aptOld], the second reconciliation still reports the second
occurrence as added, so its diff is not empty. -/
theorem claim_c2_counterexample :
    ((App.computeDiff (App.computeDiff App.default [aptOld, aptOld]).1
        [aptOld, aptOld]).2).is_empty = false := by
  decide

/-- Witness instantiating claim C2 at the empty store and the
duplicate-free snapshot list [aptOld, aptB]. -/
theorem claim_c2_idempotent_witness :
    (([aptOld, aptB].map Apartment.unit_id).Nodup) ∧
    ((App.computeDiff (App.computeDiff App.default [aptOld, aptB]).1
        [aptOld, aptB]).2).is_empty = true :=
  ⟨by decide, claim_c2_idempotent App.default [aptOld, aptB] (by decide)⟩

/-- Claim C3 (amended): when an identifier active in the store is absent
from the next snapshot collection, its unit is appended to the removed
list of the diff and deleted from the active map.  The code keeps no
`unlisted_at` timestamp and no unlisted archive: the `App` state consists
of the single field `known_apartments`, so the record is discarded rather
than archived (see the counterexample to the claim as stated). -/
theorem claim_c3_removed_discarded (S : App) (v : List Apartment)
    (k : String) (a : Apartment)
    (hk : btGet k S.known_apartments = some a)
    (habsent : k ∉ v.map Apartment.unit_id) :
    a ∈ (S.computeDiff v).2.removed ∧
    btGet k (S.computeDiff v).1.known_apartments = none := by
  constructor
  · rw [computeDiff_removed]
    refine List.mem_map.mpr ⟨(k, a), ?_, rfl⟩
    exact List.mem_filter.mpr ⟨btGet_mem _ _ _ hk, by simpa using habsent⟩
  · rw [computeDiff_fst, btGet_foldl_btInsert]
    have hfind : v.reverse.find? (fun w => decide (w.unit_id = k)) = none := by
      rw [List.find?_eq_none]
      intro w hw
      simp only [decide_eq_true_eq]
      intro hwk
      exact habsent (hwk ▸ List.mem_map_of_mem _ (List.mem_reverse.mp hw))
    simp [hfind, btGet]

/-- Counterexample to claim C3 as stated: after reconciling the store
{ A ↦ aptOld } against a snapshot collection not containing A, the entire
resulting application state equals the empty default state — the `App`
struct has no unlisted archive and no `unlisted_at` field, so the removed
record is not retrievable from anywhere in the persisted state; it
survives only in the removed list of the returned diff. -/
theorem claim_c3_counterexample :
    (App.computeDiff { known_apartments := [("A", aptOld)] } []).1 =
      App.default ∧
    (App.computeDiff { known_apartments := [("A", aptOld)] } []).2.removed =
      [aptOld] := by
  decide

/-- Witness instantiating claim C3 at the store { A ↦ aptOld } and the
snapshot collection [aptB] (identifier A absent). -/
theorem claim_c3_removed_witness :
    btGet "A" ({ known_apartments := [("A", aptOld)] } : App).known_apartments =
      some aptOld ∧
    "A" ∉ [aptB].map Apartment.unit_id ∧
    (aptOld ∈ (App.computeDiff { known_apartments := [("A", aptOld)] }
        [aptB]).2.removed ∧
     btGet "A" (App.computeDiff { known_apartments := [("A", aptOld)] }
        [aptB]).1.known_apartments = none) :=
  ⟨by decide, by decide,
    claim_c3_removed_discarded { known_apartments := [("A", aptOld)] } [aptB]
      "A" aptOld (by decide) (by decide)⟩

/-- Witness instantiating claim C6 at the scenario of the specification:
with price 4260 changing to 4300. -/
theorem claim_c6_single_field_change_witness :
    aptNew.unit_id = aptOld.unit_id ∧ aptOld ≠ aptNew ∧
    (App.computeDiff { known_apartments := [(aptOld.unit_id, aptOld)] }
        [aptNew]).2 =
      { added := [], removed := [], changed := [{ old := aptOld, new := aptNew }] } :=
  ⟨by decide, by decide,
    claim_c6_single_field_change aptOld aptNew (by decide) (by decide)⟩

/-- Claim C7: output order is deterministic: `added` is a sublist of the
input snapshot collection (hence in input order), the new sides of
`changed` likewise, and `removed` is exactly the prior active map's
leftover entries in map iteration order — ascending key order when the
store is sorted (the `BTreeMap` invariant), hence ascending identifier
order given the key/identifier invariant. -/
theorem claim_c7_output_order (S : App) (v : List Apartment)
    (hsorted : S.known_apartments.Pairwise (fun p q => strLt p.1 q.1 = true))
    (hWF : ∀ p ∈ S.known_apartments, (p.2).unit_id = p.1) :
    (S.computeDiff v).2.added.Sublist v ∧
    ((S.computeDiff v).2.changed.map ChangedApartment.new).Sublist v ∧
    (S.computeDiff v).2.removed =
      (S.known_apartments.filter
        (fun p => p.1 ∉ v.map Apartment.unit_id)).map (·.2) ∧
    (S.computeDiff v).2.removed.Pairwise
      (fun a b => strLt a.unit_id b.unit_id = true) := by
  refine ⟨?_, ?_, computeDiff_removed S v, ?_⟩
  · obtain ⟨t, ht, hs⟩ := processUnits_added_sublist v S.known_apartments []
      ApartmentsDiff.default
    have heq : (S.computeDiff v).2.added = t := by
      simp only [App.computeDiff]
      rw [ht]
      simp [ApartmentsDiff.default]
    rw [heq]
    exact hs
  · obtain ⟨t, ht, hs⟩ := processUnits_changed_sublist v S.known_apartments []
      ApartmentsDiff.default
    have heq : (S.computeDiff v).2.changed = t := by
      simp only [App.computeDiff]
      rw [ht]
      simp [ApartmentsDiff.default]
    rw [heq]
    exact hs
  · rw [computeDiff_removed, List.pairwise_map]
    refine List.Pairwise.imp_of_mem ?_ (List.Pairwise.filter _ hsorted)
    intro a b ha hb hab
    rw [hWF a (List.mem_of_mem_filter ha), hWF b (List.mem_of_mem_filter hb)]
    exact hab

/-- Witness instantiating claim C7 at the two-entry sorted store
{ A ↦ aptOld, B ↦ aptB } and the snapshot collection [aptNew]. -/
theorem claim_c7_output_order_witness :
    List.Pairwise (fun p q : String × Apartment => strLt p.1 q.1 = true)
      [("A", aptOld), ("B", aptB)] ∧
    (∀ p ∈ ([("A", aptOld), ("B", aptB)] : List (String × Apartment)),
      (p.2).unit_id = p.1) ∧
    ((App.computeDiff { known_apartments := [("A", aptOld), ("B", aptB)] }
        [aptNew]).2.added.Sublist [aptNew] ∧
     ((App.computeDiff { known_apartments := [("A", aptOld), ("B", aptB)] }
        [aptNew]).2.changed.map ChangedApartment.new).Sublist [aptNew] ∧
     (App.computeDiff { known_apartments := [("A", aptOld), ("B", aptB)] }
        [aptNew]).2.removed =
       (([("A", aptOld), ("B", aptB)] : List (String × Apartment)).filter
         (fun p => p.1 ∉ [aptNew].map Apartment.unit_id)).map (·.2) ∧
     (App.computeDiff { known_apartments := [("A", aptOld), ("B", aptB)] }
        [aptNew]).2.removed.Pairwise
       (fun a b => strLt a.unit_id b.unit_id = true)) :=
  ⟨by decide, by decide,
    claim_c7_output_order { known_apartments := [("A", aptOld), ("B", aptB)] }
      [aptNew] (by decide) (by decide)⟩

/-- Claim C10: when the same identifier occurs more than once in the input
snapshot collection, an occurrence that is preceded by an earlier snapshot
with the same identifier is classified `added` (even though the identifier
is already present in the working map), and after reconciliation the store
maps every identifier to the payload of its last occurrence in input order
(the last-matching element of the reversed input, found by `find?`). -/
theorem claim_c10_duplicate_ids (S : App) (xs ys : List Apartment)
    (u : Apartment) (hdup : u.unit_id ∈ xs.map Apartment.unit_id) :
    u ∈ (S.computeDiff (xs ++ u :: ys)).2.added ∧
    ∀ k, btGet k (S.computeDiff (xs ++ u :: ys)).1.known_apartments =
      (xs ++ u :: ys).reverse.find? (fun w => decide (w.unit_id = k)) := by
  constructor
  · have h := processUnits_added_mem xs ys u S.known_apartments []
      ApartmentsDiff.default (Or.inl hdup)
    simpa [App.computeDiff] using h
  · intro k
    rw [computeDiff_fst, btGet_foldl_btInsert]
    simp [btGet]

/-- Witness instantiating claim C10: the snapshot collection
[aptOld, aptNew] repeats identifier A; the second occurrence is added and
the store ends up holding `aptNew`, its last payload. -/
theorem claim_c10_duplicate_ids_witness :
    aptNew.unit_id ∈ [aptOld].map Apartment.unit_id ∧
    (aptNew ∈ (App.computeDiff App.default ([aptOld] ++ aptNew :: [])).2.added ∧
     ∀ k, btGet k
         (App.computeDiff App.default ([aptOld] ++ aptNew :: [])).1.known_apartments =
       ([aptOld] ++ aptNew :: []).reverse.find?
         (fun w => decide (w.unit_id = k))) :=
  ⟨by decide,
    claim_c10_duplicate_ids App.default [aptOld] [] aptNew (by decide)⟩

/-- Claim C9: every rendered change line is prefixed by the pair of 1-based
line number columns followed (after the box-drawing separator) by the sign
character, with the column of the absent side rendered blank: a delete
line shows only the old line number and `-`, an insert line only the new
line number and `+`, an equal (context) line both numbers and a space.
The hypotheses record the index shape `similar` guarantees for each
change tag. -/
theorem claim_c9_line_number_prefix (acc : String) (c : Change)
    (hdel : c.tag = ChangeTag.delete →
      (∃ n, c.old_index = some n) ∧ c.new_index = none)
    (hins : c.tag = ChangeTag.insert →
      c.old_index = none ∧ ∃ n, c.new_index = some n)
    (heq : c.tag = ChangeTag.equal →
      (∃ n, c.old_index = some n) ∧ ∃ m, c.new_index = some m) :
    (c.tag = ChangeTag.delete → ∃ n t, c.old_index = some n ∧
       renderChange acc c =
         .ok (acc ++ (padTo4 (toString (n + 1)) ++ "    " ++ " │" ++ "-" ++ t))) ∧
    (c.tag = ChangeTag.insert → ∃ n t, c.new_index = some n ∧
       renderChange acc c =
         .ok (acc ++ ("    " ++ padTo4 (toString (n + 1)) ++ " │" ++ "+" ++ t))) ∧
    (c.tag = ChangeTag.equal → ∃ n m t, c.old_index = some n ∧
       c.new_index = some m ∧
       renderChange acc c =
         .ok (acc ++ (padTo4 (toString (n + 1)) ++ padTo4 (toString (m + 1)) ++
           " │" ++ " " ++ t))) := by
  obtain ⟨t, ht⟩ := renderChange_shape acc c
  refine ⟨?_, ?_, ?_⟩
  · intro htag
    obtain ⟨⟨n, hn⟩, hnew⟩ := hdel htag
    refine ⟨n, t, hn, ?_⟩
    simpa [hn, hnew, htag, Line.display, signOf, String.append_assoc] using ht
  · intro htag
    obtain ⟨hold, n, hn⟩ := hins htag
    refine ⟨n, t, hn, ?_⟩
    simpa [hn, hold, htag, Line.display, signOf, String.append_assoc] using ht
  · intro htag
    obtain ⟨⟨n, hn⟩, m, hm⟩ := heq htag
    refine ⟨n, m, t, hn, hm, ?_⟩
    simpa [hn, hm, htag, Line.display, signOf, String.append_assoc] using ht

/-- Witness instantiating claim C9 at the concrete delete change `cDel`
(old line index 0, no new line, inline text from the specification
scenario). -/
theorem claim_c9_line_number_prefix_witness :
    ((cDel.tag = ChangeTag.delete →
        (∃ n, cDel.old_index = some n) ∧ cDel.new_index = none) ∧
     (cDel.tag = ChangeTag.insert →
        cDel.old_index = none ∧ ∃ n, cDel.new_index = some n) ∧
     (cDel.tag = ChangeTag.equal →
        (∃ n, cDel.old_index = some n) ∧ ∃ m, cDel.new_index = some m)) ∧
    ((cDel.tag = ChangeTag.delete → ∃ n t, cDel.old_index = some n ∧
        renderChange "" cDel =
          .ok ("" ++ (padTo4 (toString (n + 1)) ++ "    " ++ " │" ++ "-" ++ t))) ∧
     (cDel.tag = ChangeTag.insert → ∃ n t, cDel.new_index = some n ∧
        renderChange "" cDel =
          .ok ("" ++ ("    " ++ padTo4 (toString (n + 1)) ++ " │" ++ "+" ++ t))) ∧
     (cDel.tag = ChangeTag.equal → ∃ n m t, cDel.old_index = some n ∧
        cDel.new_index = some m ∧
        renderChange "" cDel =
          .ok ("" ++ (padTo4 (toString (n + 1)) ++ padTo4 (toString (m + 1)) ++
            " │" ++ " " ++ t)))) :=
  ⟨⟨fun _ => ⟨⟨0, rfl⟩, rfl⟩, fun h => by simp [cDel] at h,
    fun h => by simp [cDel] at h⟩,
   claim_c9_line_number_prefix "" cDel (fun _ => ⟨⟨0, rfl⟩, rfl⟩)
     (fun h => by simp [cDel] at h) (fun h => by simp [cDel] at h)⟩
